import Mathlib

/-!
Shallow embedding of the TUIC protocol engine of the `wind` proxy
(crates/wind-tuic and supporting types from crates/wind-core), together with
theorems settling the specification claims about it.

Machine integers are modelled as `Nat` with explicit `% 2^w` where the Rust
code truncates (`as u8` / `as u16`); buffers (`bytes::BytesMut`) are modelled
as `List Nat` of byte values consumed from the front.  Rust panics
(arithmetic underflow in debug profile, division by zero, out-of-range
`split_to` / `copy_to_bytes`) are modelled by explicit `panicked` outcomes.
-/

namespace Wind

/-! ## Byte-buffer primitives (bytes::Buf / bytes::BufMut) -/

/-- `BufMut::put_u16`: append a `u16` big-endian.  The explicit `% 256`
mirrors the machine width of each emitted byte. -/
def putU16 (n : Nat) : List Nat := [n / 256 % 256, n % 256]

/-- `Buf::get_u16`: read a big-endian `u16` from the front of the buffer.
Only used in the source after a length guard, so the default 0 for a short
buffer is unreachable. -/
def getU16 : List Nat → Nat
  | b0 :: b1 :: _ => b0 * 256 + b1
  | [b0] => b0 * 256
  | [] => 0

/-- `Buf::get_u8` (guarded by length checks in the source). -/
def getU8 : List Nat → Nat
  | b :: _ => b
  | [] => 0

theorem getU16_putU16 (n : Nat) (h : n < 65536) (rest : List Nat) :
    getU16 (putU16 n ++ rest) = n := by
  have hdiv : n / 256 < 256 := by omega
  simp [putU16, getU16, Nat.mod_eq_of_lt hdiv]
  omega

/-! ## UTF-8 validation (`str::from_utf8` acceptance, RFC 3629 ranges) -/

/-- UTF-8 continuation byte (0x80–0xBF). -/
def contByte (c : Nat) : Bool := decide (0x80 ≤ c ∧ c ≤ 0xBF)

/-- The byte sequences accepted by Rust's `str::from_utf8`.  Domains are
`String`s in the source; this predicate is the invariant their byte content
carries. -/
def isValidUtf8 : List Nat → Bool
  | [] => true
  | b :: rest =>
    if b ≤ 0x7F then isValidUtf8 rest
    else
      match rest with
      | [] => false
      | c1 :: rest1 =>
        if 0xC2 ≤ b ∧ b ≤ 0xDF then contByte c1 && isValidUtf8 rest1
        else
          match rest1 with
          | [] => false
          | c2 :: rest2 =>
            if b = 0xE0 then
              decide (0xA0 ≤ c1 ∧ c1 ≤ 0xBF) && contByte c2 && isValidUtf8 rest2
            else if 0xE1 ≤ b ∧ b ≤ 0xEC then
              contByte c1 && contByte c2 && isValidUtf8 rest2
            else if b = 0xED then
              decide (0x80 ≤ c1 ∧ c1 ≤ 0x9F) && contByte c2 && isValidUtf8 rest2
            else if 0xEE ≤ b ∧ b ≤ 0xEF then
              contByte c1 && contByte c2 && isValidUtf8 rest2
            else
              match rest2 with
              | [] => false
              | c3 :: rest3 =>
                if b = 0xF0 then
                  decide (0x90 ≤ c1 ∧ c1 ≤ 0xBF) && contByte c2 && contByte c3 &&
                    isValidUtf8 rest3
                else if 0xF1 ≤ b ∧ b ≤ 0xF3 then
                  contByte c1 && contByte c2 && contByte c3 && isValidUtf8 rest3
                else if b = 0xF4 then
                  decide (0x80 ≤ c1 ∧ c1 ≤ 0x8F) && contByte c2 && contByte c3 &&
                    isValidUtf8 rest3
                else false

/-! ## Data model (wind-core types.rs, wind-tuic proto) -/

/-- `wind_core::types::TargetAddr`.  Domain names are the byte content of the
Rust `String`; IPv4/IPv6 addresses are their octet lists (length 4 / 16). -/
inductive TargetAddr
  | domain (name : List Nat) (port : Nat)
  | ipv4 (octets : List Nat) (port : Nat)
  | ipv6 (octets : List Nat) (port : Nat)
  deriving DecidableEq, Repr

/-- `wind_tuic::proto::Address` (addr.rs). -/
inductive Address
  | addrNone
  | domain (name : List Nat) (port : Nat)
  | ipv4 (octets : List Nat) (port : Nat)
  | ipv6 (octets : List Nat) (port : Nat)
  deriving DecidableEq, Repr

/-- `impl From<TargetAddr> for Address` (addr.rs). -/
def addressOfTarget : TargetAddr → Address
  | .domain s port => .domain s port
  | .ipv4 a port => .ipv4 a port
  | .ipv6 a port => .ipv6 a port

/-- `wind_tuic::proto::CmdType` (v5/header.rs). -/
inductive CmdType
  | auth
  | connect
  | packet
  | dissociate
  | heartbeat
  | other (value : Nat)
  deriving DecidableEq, Repr

/-- `num_enum` byte → `CmdType` conversion (catch-all `Other`). -/
def cmdTypeOfByte (b : Nat) : CmdType :=
  if b = 0 then .auth
  else if b = 1 then .connect
  else if b = 2 then .packet
  else if b = 3 then .dissociate
  else if b = 4 then .heartbeat
  else .other b

/-- `num_enum` `CmdType` → byte conversion. -/
def byteOfCmdType : CmdType → Nat
  | .auth => 0
  | .connect => 1
  | .packet => 2
  | .dissociate => 3
  | .heartbeat => 4
  | .other v => v

/-- `wind_tuic::proto::Header` (v5/header.rs).  `VER = 5`. -/
structure Header where
  version : Nat
  command : CmdType
  deriving DecidableEq, Repr

/-- `Header::new`. -/
def Header.mkNew (command : CmdType) : Header := ⟨5, command⟩

/-- `wind_tuic::proto::Command` (cmd.rs).  `uuid` is the 16 raw UUID bytes,
`token` the 32 token bytes. -/
inductive Command
  | auth (uuid : List Nat) (token : List Nat)
  | connect
  | packet (assoc_id pkt_id frag_total frag_id size : Nat)
  | dissociate (assoc_id : Nat)
  | heartbeat
  deriving DecidableEq, Repr

/-- `impl From<&Command> for CmdType` (v5/header.rs). -/
def cmdTypeOfCommand : Command → CmdType
  | .auth _ _ => .auth
  | .connect => .connect
  | .packet _ _ _ _ _ => .packet
  | .dissociate _ => .dissociate
  | .heartbeat => .heartbeat

/-- `wind_tuic::proto::ProtoError` (error.rs); backtraces omitted. -/
inductive ProtoError
  | versionDismatch (expect current : Nat)
  | unknownCommandType (value : Nat)
  | unknownAddressType (value : Nat)
  | failParseDomain (raw : List Nat)
  | domainTooLong (domain : List Nat)
  | bytesRemaining
  deriving DecidableEq, Repr

/-- Result of one `Decoder::decode` call: the `Result<Option<Item>>` value
together with the buffer contents after the call (`BytesMut` is mutated in
place in the source). -/
abbrev DecodeResult (α : Type) := Except ProtoError (Option α) × List Nat

/-! ## HeaderCodec (v5/header.rs) -/

/-- `HeaderCodec::encode`: two bytes `[version, cmd]`. -/
def HeaderCodec.encode (h : Header) : List Nat :=
  [h.version % 256, byteOfCmdType h.command % 256]

/-- `HeaderCodec::decode`. -/
def HeaderCodec.decode (src : List Nat) : DecodeResult Header :=
  if src.length < 2 then (.ok none, src)
  else
    match src with
    | ver :: rest =>
      if ver = 5 then
        match rest with
        | b :: rest2 =>
          let cmd := cmdTypeOfByte b
          match cmd with
          | .other v => (.error (.unknownCommandType v), rest2)
          | _ => (.ok (some (Header.mkNew cmd)), rest2)
        | [] => (.ok none, src)
      else (.error (.versionDismatch 5 ver), rest)
    | [] => (.ok none, src)

/-- `HeaderCodec::decode_eof`. -/
def HeaderCodec.decodeEof (src : List Nat) : DecodeResult Header :=
  match HeaderCodec.decode src with
  | (.ok none, b) => (.error .bytesRemaining, b)
  | v => v

/-! ## CmdCodec (cmd.rs) -/

/-- `CmdCodec::encode` (never fails in the source). -/
def CmdCodec.encode : Command → List Nat
  | .auth uuid token => uuid ++ token
  | .connect => []
  | .packet assoc_id pkt_id frag_total frag_id size =>
      putU16 assoc_id ++ putU16 pkt_id ++ [frag_total % 256, frag_id % 256] ++ putU16 size
  | .dissociate assoc_id => putU16 assoc_id
  | .heartbeat => []

/-- `CmdCodec::decode`, keyed by the `CmdType` the codec was built with. -/
def CmdCodec.decode (ct : CmdType) (src : List Nat) : DecodeResult Command :=
  match ct with
  | .auth =>
    if src.length < 16 + 32 then (.ok none, src)
    else
      (.ok (some (.auth (src.take 16) ((src.drop 16).take 32))), src.drop 48)
  | .connect => (.ok (some .connect), src)
  | .packet =>
    if src.length < 8 then (.ok none, src)
    else
      (.ok (some (.packet (getU16 src) (getU16 (src.drop 2)) (getU8 (src.drop 4))
          (getU8 (src.drop 5)) (getU16 (src.drop 6)))), src.drop 8)
  | .dissociate =>
    if src.length < 2 then (.ok none, src)
    else (.ok (some (.dissociate (getU16 src))), src.drop 2)
  | .heartbeat => (.ok (some .heartbeat), src)
  | .other v => (.error (.unknownCommandType v), src)

/-- `CmdCodec::decode_eof`. -/
def CmdCodec.decodeEof (ct : CmdType) (src : List Nat) : DecodeResult Command :=
  match CmdCodec.decode ct src with
  | (.ok none, b) => (.error .bytesRemaining, b)
  | v => v

/-! ## AddressCodec (addr.rs) -/

/-- `AddressCodec::encode`.  Fails with `DomainTooLong` when the domain name
exceeds 255 bytes; the `% 256` on the length byte mirrors `as u8`. -/
def AddressCodec.encode : Address → Except ProtoError (List Nat)
  | .addrNone => .ok [255]
  | .ipv4 octets port => .ok (1 :: octets ++ putU16 port)
  | .ipv6 octets port => .ok (2 :: octets ++ putU16 port)
  | .domain name port =>
    if name.length > 255 then .error (.domainTooLong name)
    else .ok (0 :: name.length % 256 :: name ++ putU16 port)

/-- `AddressCodec::decode`.  Every "more input needed" branch returns before
any byte is consumed, exactly as in the source. -/
def AddressCodec.decode (src : List Nat) : DecodeResult Address :=
  match src with
  | [] => (.ok none, src)
  | t :: rest =>
    if t = 255 then (.ok (some .addrNone), rest)
    else if t = 1 then
      if src.length < 1 + 4 + 2 then (.ok none, src)
      else (.ok (some (.ipv4 (rest.take 4) (getU16 (rest.drop 4)))), rest.drop 6)
    else if t = 2 then
      if src.length < 1 + 16 + 2 then (.ok none, src)
      else (.ok (some (.ipv6 (rest.take 16) (getU16 (rest.drop 16)))), rest.drop 18)
    else if t = 0 then
      match rest with
      | [] => (.ok none, src)
      | dlen :: _ =>
        if src.length < 1 + 1 + dlen + 2 then (.ok none, src)
        else
          let after := src.drop 2
          let name := after.take dlen
          if isValidUtf8 name then
            (.ok (some (.domain name (getU16 (after.drop dlen)))), after.drop (dlen + 2))
          else (.error (.failParseDomain name), after)
    else (.error (.unknownAddressType t), src)

/-- `AddressCodec::decode_eof`. -/
def AddressCodec.decodeEof (src : List Nat) : DecodeResult Address :=
  match AddressCodec.decode src with
  | (.ok none, b) => (.error .bytesRemaining, b)
  | v => v

/-! ## Well-formedness invariants carried by the Rust types -/

/-- A known (non-catch-all) command type. -/
def CmdType.known : CmdType → Bool
  | .other _ => false
  | _ => true

/-- A `Header` as the source constructs it: version `VER = 5` and a known
command. -/
def Header.WF (h : Header) : Prop :=
  h.version = 5 ∧ h.command.known = true

/-- Rust type invariants of `Command` fields: `Uuid` is 16 bytes, the token
32 bytes, and the numeric fields fit their declared width. -/
def Command.WF : Command → Prop
  | .auth uuid token => uuid.length = 16 ∧ token.length = 32
  | .connect => True
  | .packet assoc_id pkt_id frag_total frag_id size =>
      assoc_id < 65536 ∧ pkt_id < 65536 ∧ frag_total < 256 ∧ frag_id < 256 ∧ size < 65536
  | .dissociate assoc_id => assoc_id < 65536
  | .heartbeat => True

/-- Rust type invariants of `Address`: octet lists of the right length,
ports `u16`, domain names valid UTF-8 (they are `String`s) of at most 255
bytes. -/
def Address.WF : Address → Prop
  | .addrNone => True
  | .ipv4 octets port => octets.length = 4 ∧ port < 65536
  | .ipv6 octets port => octets.length = 16 ∧ port < 65536
  | .domain name port => name.length ≤ 255 ∧ isValidUtf8 name = true ∧ port < 65536

end Wind

namespace Wind

/-! ## Codec round-trip helper lemmas -/

theorem u16_recompose (n : Nat) (h : n < 65536) : n / 256 % 256 * 256 + n % 256 = n := by
  have hdiv : n / 256 < 256 := by omega
  rw [Nat.mod_eq_of_lt hdiv]
  omega

theorem length_putU16 (n : Nat) : (putU16 n).length = 2 := rfl

theorem headerRoundTrip (h : Header) (hwf : h.WF) (rest : List Nat) :
    HeaderCodec.decode (HeaderCodec.encode h ++ rest) = (.ok (some h), rest) := by
  obtain ⟨hv, hk⟩ := hwf
  obtain ⟨v, c⟩ := h
  simp only at hv
  subst hv
  cases c <;>
    simp_all [HeaderCodec.decode, HeaderCodec.encode, byteOfCmdType, cmdTypeOfByte,
      Header.mkNew, CmdType.known]

theorem cmdRoundTrip (c : Command) (hwf : c.WF) (rest : List Nat) :
    CmdCodec.decode (cmdTypeOfCommand c) (CmdCodec.encode c ++ rest) = (.ok (some c), rest) := by
  cases c with
  | auth uuid token =>
    obtain ⟨h16, h32⟩ := hwf
    have hlen : ((uuid ++ token) ++ rest).length ≥ 48 := by
      simp only [List.length_append, h16, h32]
      omega
    simp only [cmdTypeOfCommand, CmdCodec.encode, CmdCodec.decode]
    rw [if_neg (by omega)]
    rw [List.append_assoc]
    rw [List.take_left' h16, List.drop_left' h16, List.take_left' h32,
      ← List.append_assoc, List.drop_left' (by simp [h16, h32])]
  | connect => simp [cmdTypeOfCommand, CmdCodec.encode, CmdCodec.decode]
  | packet assoc_id pkt_id frag_total frag_id size =>
    obtain ⟨ha, hp, hft, hfi, hs⟩ := hwf
    simp only [cmdTypeOfCommand, CmdCodec.encode, CmdCodec.decode, putU16, List.cons_append,
      List.nil_append, List.append_assoc]
    rw [if_neg (by simp)]
    simp [getU16, getU8, u16_recompose _ ha, u16_recompose _ hp, u16_recompose _ hs,
      Nat.mod_eq_of_lt hft, Nat.mod_eq_of_lt hfi]
  | dissociate assoc_id =>
    simp only [cmdTypeOfCommand, CmdCodec.encode, CmdCodec.decode, putU16, List.cons_append,
      List.nil_append]
    rw [if_neg (by simp)]
    simp [getU16, u16_recompose _ hwf]
  | heartbeat => simp [cmdTypeOfCommand, CmdCodec.encode, CmdCodec.decode]

theorem addrRoundTrip (a : Address) (hwf : a.WF) (rest : List Nat) :
    ∃ bytes, AddressCodec.encode a = .ok bytes ∧
      AddressCodec.decode (bytes ++ rest) = (.ok (some a), rest) := by
  cases a with
  | addrNone =>
    refine ⟨[255], rfl, ?_⟩
    simp [AddressCodec.decode]
  | ipv4 octets port =>
    obtain ⟨h4, hport⟩ := hwf
    refine ⟨1 :: octets ++ putU16 port, rfl, ?_⟩
    have hlen : ((1 :: octets ++ putU16 port) ++ rest).length = 7 + rest.length := by
      simp only [List.cons_append, List.append_assoc, List.length_cons, List.length_append,
        length_putU16, h4]
      omega
    simp only [List.cons_append, List.append_assoc] at hlen ⊢
    simp only [AddressCodec.decode]
    simp only [hlen]
    norm_num
    rw [List.take_left' h4, List.drop_left' h4]
    rw [show (6 : Nat) = (octets ++ putU16 port).length by simp [h4, putU16],
      ← List.append_assoc, List.drop_left]
    simp [getU16_putU16 port hport]
  | ipv6 octets port =>
    obtain ⟨h16, hport⟩ := hwf
    refine ⟨2 :: octets ++ putU16 port, rfl, ?_⟩
    have hlen : ((2 :: octets ++ putU16 port) ++ rest).length = 19 + rest.length := by
      simp only [List.cons_append, List.append_assoc, List.length_cons, List.length_append,
        length_putU16, h16]
      omega
    simp only [List.cons_append, List.append_assoc] at hlen ⊢
    simp only [AddressCodec.decode]
    simp only [hlen]
    norm_num
    rw [List.take_left' h16, List.drop_left' h16]
    rw [show (18 : Nat) = (octets ++ putU16 port).length by simp [h16, putU16],
      ← List.append_assoc, List.drop_left]
    simp [getU16_putU16 port hport]
  | domain name port =>
    obtain ⟨h255, hutf, hport⟩ := hwf
    have hmod : name.length % 256 = name.length := Nat.mod_eq_of_lt (by omega)
    refine ⟨0 :: name.length % 256 :: name ++ putU16 port, ?_, ?_⟩
    · rw [AddressCodec.encode]
      rw [if_neg (show ¬name.length > 255 by omega)]
    · have hlen : ((0 :: name.length % 256 :: name ++ putU16 port) ++ rest).length
          = name.length + 4 + rest.length := by
        simp only [List.cons_append, List.append_assoc, List.length_cons, List.length_append,
          length_putU16]
        omega
      simp only [List.cons_append, List.append_assoc] at hlen ⊢
      simp only [AddressCodec.decode]
      simp only [hlen]
      simp only [hmod]
      norm_num
      split
      · next hlt => exfalso; omega
      · rw [getU16_putU16 port hport]
        simp [putU16]

end Wind

namespace Wind

/-! ## Streaming (partial input) helper lemmas -/

theorem headerPartial (h : Header) (k : Nat) (hk : k < (HeaderCodec.encode h).length) :
    HeaderCodec.decode ((HeaderCodec.encode h).take k)
      = (.ok none, (HeaderCodec.encode h).take k) := by
  have hL : (HeaderCodec.encode h).length = 2 := rfl
  have hcond : ((HeaderCodec.encode h).take k).length < 2 := by
    simp only [List.length_take, hL]
    omega
  rw [HeaderCodec.decode.eq_def, if_pos hcond]

theorem cmdPartial (c : Command) (hwf : c.WF) (k : Nat) (hk : k < (CmdCodec.encode c).length) :
    CmdCodec.decode (cmdTypeOfCommand c) ((CmdCodec.encode c).take k)
      = (.ok none, (CmdCodec.encode c).take k) := by
  cases c with
  | auth uuid token =>
    obtain ⟨h16, h32⟩ := hwf
    have hL : (CmdCodec.encode (Command.auth uuid token)).length = 48 := by
      simp [CmdCodec.encode, h16, h32]
    rw [hL] at hk
    have hcond : ((CmdCodec.encode (Command.auth uuid token)).take k).length < 16 + 32 := by
      simp only [List.length_take, hL]
      omega
    simp only [cmdTypeOfCommand, CmdCodec.decode]
    rw [if_pos hcond]
  | connect => exact absurd hk (by simp [CmdCodec.encode])
  | packet assoc_id pkt_id frag_total frag_id size =>
    have hL : (CmdCodec.encode (Command.packet assoc_id pkt_id frag_total frag_id size)).length
        = 8 := by
      simp [CmdCodec.encode, putU16]
    rw [hL] at hk
    have hcond : ((CmdCodec.encode
        (Command.packet assoc_id pkt_id frag_total frag_id size)).take k).length < 8 := by
      simp only [List.length_take, hL]
      omega
    simp only [cmdTypeOfCommand, CmdCodec.decode]
    rw [if_pos hcond]
  | dissociate assoc_id =>
    have hL : (CmdCodec.encode (Command.dissociate assoc_id)).length = 2 := by
      simp [CmdCodec.encode, putU16]
    rw [hL] at hk
    have hcond : ((CmdCodec.encode (Command.dissociate assoc_id)).take k).length < 2 := by
      simp only [List.length_take, hL]
      omega
    simp only [cmdTypeOfCommand, CmdCodec.decode]
    rw [if_pos hcond]
  | heartbeat => exact absurd hk (by simp [CmdCodec.encode])

theorem addrPartial (a : Address) (hwf : a.WF) (bytes : List Nat)
    (henc : AddressCodec.encode a = .ok bytes) (k : Nat) (hk : k < bytes.length) :
    AddressCodec.decode (bytes.take k) = (.ok none, bytes.take k) := by
  cases a with
  | addrNone =>
    simp only [AddressCodec.encode, Except.ok.injEq] at henc
    subst henc
    simp only [List.length_cons, List.length_nil] at hk
    interval_cases k
    simp [AddressCodec.decode]
  | ipv4 octets port =>
    obtain ⟨h4, hport⟩ := hwf
    simp only [AddressCodec.encode, Except.ok.injEq] at henc
    subst henc
    have hlen : (1 :: octets ++ putU16 port).length = 7 := by
      simp [h4, putU16]
    rw [hlen] at hk
    cases k with
    | zero => simp [AddressCodec.decode]
    | succ j =>
      simp only [List.cons_append, List.take_succ_cons, AddressCodec.decode]
      norm_num
      intro h1
      exfalso
      rw [h4, length_putU16] at h1
      omega
  | ipv6 octets port =>
    obtain ⟨h16, hport⟩ := hwf
    simp only [AddressCodec.encode, Except.ok.injEq] at henc
    subst henc
    have hlen : (2 :: octets ++ putU16 port).length = 19 := by
      simp [h16, putU16]
    rw [hlen] at hk
    cases k with
    | zero => simp [AddressCodec.decode]
    | succ j =>
      simp only [List.cons_append, List.take_succ_cons, AddressCodec.decode]
      norm_num
      intro h1
      exfalso
      rw [h16, length_putU16] at h1
      omega
  | domain name port =>
    obtain ⟨h255, hutf, hport⟩ := hwf
    have hmod : name.length % 256 = name.length := Nat.mod_eq_of_lt (by omega)
    have henc2 : AddressCodec.encode (Address.domain name port)
        = .ok (0 :: name.length % 256 :: name ++ putU16 port) := by
      rw [AddressCodec.encode]
      rw [if_neg (show ¬name.length > 255 by omega)]
    rw [henc2] at henc
    simp only [Except.ok.injEq] at henc
    subst henc
    have hlen : (0 :: name.length % 256 :: name ++ putU16 port).length
        = name.length + 4 := by
      simp only [List.cons_append, List.length_cons, List.length_append, length_putU16]
    rw [hlen] at hk
    match k with
    | 0 => simp [AddressCodec.decode]
    | 1 => simp [AddressCodec.decode]
    | (j + 2) =>
      simp only [List.cons_append, List.take_succ_cons, AddressCodec.decode]
      norm_num
      simp only [hmod]
      intro h1
      exfalso
      omega

theorem headerEofOfNeedsMore (src : List Nat)
    (h : HeaderCodec.decode src = (.ok none, src)) :
    HeaderCodec.decodeEof src = (.error .bytesRemaining, src) := by
  rw [HeaderCodec.decodeEof, h]

theorem cmdEofOfNeedsMore (ct : CmdType) (src : List Nat)
    (h : CmdCodec.decode ct src = (.ok none, src)) :
    CmdCodec.decodeEof ct src = (.error .bytesRemaining, src) := by
  rw [CmdCodec.decodeEof, h]

theorem addrEofOfNeedsMore (src : List Nat)
    (h : AddressCodec.decode src = (.ok none, src)) :
    AddressCodec.decodeEof src = (.error .bytesRemaining, src) := by
  rw [AddressCodec.decodeEof, h]

end Wind

namespace Wind

/-- Claim C7: for every valid Header (version 5, known command), every
Command value, and every Address value whose domain name is at most 255
bytes, decoding the bytes produced by the corresponding encoder returns
exactly the original value and consumes exactly the encoded bytes (any
appended suffix is left in the buffer untouched). -/
theorem claim_C7 (h : Header) (c : Command) (a : Address)
    (hh : h.WF) (hc : c.WF) (ha : a.WF) (rest₁ rest₂ rest₃ : List Nat) :
    HeaderCodec.decode (HeaderCodec.encode h ++ rest₁) = (.ok (some h), rest₁) ∧
    CmdCodec.decode (cmdTypeOfCommand c) (CmdCodec.encode c ++ rest₂)
      = (.ok (some c), rest₂) ∧
    ∃ bytes, AddressCodec.encode a = .ok bytes ∧
      AddressCodec.decode (bytes ++ rest₃) = (.ok (some a), rest₃) :=
  ⟨headerRoundTrip h hh rest₁, cmdRoundTrip c hc rest₂, addrRoundTrip a ha rest₃⟩

/-- Witness for claim C7 at a concrete header, Packet command and IPv4
address. -/
theorem claim_C7_witness :
    HeaderCodec.decode (HeaderCodec.encode (Header.mkNew .packet) ++ [9])
      = (.ok (some (Header.mkNew .packet)), [9]) ∧
    CmdCodec.decode (cmdTypeOfCommand (.packet 1 2 3 0 5))
        (CmdCodec.encode (.packet 1 2 3 0 5) ++ [7])
      = (.ok (some (.packet 1 2 3 0 5)), [7]) ∧
    ∃ bytes, AddressCodec.encode (.ipv4 [127, 0, 0, 1] 80) = .ok bytes ∧
      AddressCodec.decode (bytes ++ [8]) = (.ok (some (.ipv4 [127, 0, 0, 1] 80)), [8]) :=
  claim_C7 (Header.mkNew .packet) (.packet 1 2 3 0 5) (.ipv4 [127, 0, 0, 1] 80)
    ⟨rfl, rfl⟩ ⟨by norm_num, by norm_num, by norm_num, by norm_num, by norm_num⟩
    ⟨rfl, by norm_num⟩ [9] [7] [8]

/-- Claim C8: for every valid encodable Header, Command, or Address value and
every strict prefix A of its encoding E, the decoder on A alone returns
needs-more (`Ok(None)`) without consuming any bytes of A, the EOF variant on
A returns the `BytesRemaining` error, and the decoder on the recombined
`A ++ B` returns the original value. -/
theorem claim_C8 (h : Header) (c : Command) (a : Address)
    (hh : h.WF) (hc : c.WF) (ha : a.WF)
    (k₁ k₂ k₃ : Nat) (bytes : List Nat)
    (hk₁ : k₁ < (HeaderCodec.encode h).length)
    (hk₂ : k₂ < (CmdCodec.encode c).length)
    (henc : AddressCodec.encode a = .ok bytes)
    (hk₃ : k₃ < bytes.length) :
    (HeaderCodec.decode ((HeaderCodec.encode h).take k₁)
        = (.ok none, (HeaderCodec.encode h).take k₁) ∧
      HeaderCodec.decodeEof ((HeaderCodec.encode h).take k₁)
        = (.error .bytesRemaining, (HeaderCodec.encode h).take k₁) ∧
      HeaderCodec.decode ((HeaderCodec.encode h).take k₁ ++ (HeaderCodec.encode h).drop k₁)
        = (.ok (some h), [])) ∧
    (CmdCodec.decode (cmdTypeOfCommand c) ((CmdCodec.encode c).take k₂)
        = (.ok none, (CmdCodec.encode c).take k₂) ∧
      CmdCodec.decodeEof (cmdTypeOfCommand c) ((CmdCodec.encode c).take k₂)
        = (.error .bytesRemaining, (CmdCodec.encode c).take k₂) ∧
      CmdCodec.decode (cmdTypeOfCommand c) ((CmdCodec.encode c).take k₂ ++ (CmdCodec.encode c).drop k₂)
        = (.ok (some c), [])) ∧
    (AddressCodec.decode (bytes.take k₃) = (.ok none, bytes.take k₃) ∧
      AddressCodec.decodeEof (bytes.take k₃)
        = (.error .bytesRemaining, bytes.take k₃) ∧
      AddressCodec.decode (bytes.take k₃ ++ bytes.drop k₃) = (.ok (some a), [])) := by
  refine ⟨⟨headerPartial h k₁ hk₁,
      headerEofOfNeedsMore _ (headerPartial h k₁ hk₁), ?_⟩,
    ⟨cmdPartial c hc k₂ hk₂,
      cmdEofOfNeedsMore _ _ (cmdPartial c hc k₂ hk₂), ?_⟩,
    ⟨addrPartial a ha bytes henc k₃ hk₃,
      addrEofOfNeedsMore _ (addrPartial a ha bytes henc k₃ hk₃), ?_⟩⟩
  · rw [List.take_append_drop]
    have hrt := headerRoundTrip h hh []
    rwa [List.append_nil] at hrt
  · rw [List.take_append_drop]
    have hrt := cmdRoundTrip c hc []
    rwa [List.append_nil] at hrt
  · rw [List.take_append_drop]
    obtain ⟨bytes2, hb2, hdec⟩ := addrRoundTrip a ha []
    rw [henc] at hb2
    obtain rfl : bytes = bytes2 := by
      simpa using hb2
    rwa [List.append_nil] at hdec

/-- Witness for claim C8: splitting the encodings of a concrete header,
Packet command and IPv4 address at positions 1, 3, 2 respectively. -/
theorem claim_C8_witness :
    (HeaderCodec.decode ((HeaderCodec.encode (Header.mkNew .packet)).take 1)
        = (.ok none, (HeaderCodec.encode (Header.mkNew .packet)).take 1) ∧
      HeaderCodec.decodeEof ((HeaderCodec.encode (Header.mkNew .packet)).take 1)
        = (.error .bytesRemaining, (HeaderCodec.encode (Header.mkNew .packet)).take 1) ∧
      HeaderCodec.decode ((HeaderCodec.encode (Header.mkNew .packet)).take 1
          ++ (HeaderCodec.encode (Header.mkNew .packet)).drop 1)
        = (.ok (some (Header.mkNew .packet)), [])) ∧
    (CmdCodec.decode (cmdTypeOfCommand (.packet 1 2 3 0 5))
          ((CmdCodec.encode (.packet 1 2 3 0 5)).take 3)
        = (.ok none, (CmdCodec.encode (.packet 1 2 3 0 5)).take 3) ∧
      CmdCodec.decodeEof (cmdTypeOfCommand (.packet 1 2 3 0 5))
          ((CmdCodec.encode (.packet 1 2 3 0 5)).take 3)
        = (.error .bytesRemaining, (CmdCodec.encode (.packet 1 2 3 0 5)).take 3) ∧
      CmdCodec.decode (cmdTypeOfCommand (.packet 1 2 3 0 5))
          ((CmdCodec.encode (.packet 1 2 3 0 5)).take 3
            ++ (CmdCodec.encode (.packet 1 2 3 0 5)).drop 3)
        = (.ok (some (.packet 1 2 3 0 5)), [])) ∧
    (AddressCodec.decode ([1, 127, 0, 0, 1, 0, 80].take 2)
        = (.ok none, [1, 127, 0, 0, 1, 0, 80].take 2) ∧
      AddressCodec.decodeEof ([1, 127, 0, 0, 1, 0, 80].take 2)
        = (.error .bytesRemaining, [1, 127, 0, 0, 1, 0, 80].take 2) ∧
      AddressCodec.decode ([1, 127, 0, 0, 1, 0, 80].take 2 ++ [1, 127, 0, 0, 1, 0, 80].drop 2)
        = (.ok (some (.ipv4 [127, 0, 0, 1] 80)), [])) :=
  claim_C8 (Header.mkNew .packet) (.packet 1 2 3 0 5) (.ipv4 [127, 0, 0, 1] 80)
    ⟨rfl, rfl⟩ ⟨by norm_num, by norm_num, by norm_num, by norm_num, by norm_num⟩
    ⟨rfl, by norm_num⟩ 1 3 2 [1, 127, 0, 0, 1, 0, 80]
    (by decide) (by simp [CmdCodec.encode, putU16]) (by rfl) (by norm_num)

end Wind

namespace Wind

/-! ## Association-list maps

`moka::future::Cache` keeps at most one entry per key; `HashMap` likewise.
Both are modelled as association lists where `alInsert` replaces any previous
entry for the key (capacity bounds and TTL eviction are not modelled; the
claims below never exceed them). -/

/-- `Cache::get` / `HashMap::get`. -/
def alGet {α β : Type} [DecidableEq α] (k : α) : List (α × β) → Option β
  | [] => none
  | q :: t => if q.1 = k then some q.2 else alGet k t

/-- `Cache::remove` / `HashMap::remove`: drop the entry for `k`. -/
def alErase {α β : Type} [DecidableEq α] (k : α) : List (α × β) → List (α × β)
  | [] => []
  | q :: t => if q.1 = k then alErase k t else q :: alErase k t

/-- `Cache::insert` / `entry().or_insert_with` update: replace the entry for
`k`. -/
def alInsert {α β : Type} [DecidableEq α] (k : α) (v : β) (l : List (α × β)) :
    List (α × β) :=
  (k, v) :: alErase k l

theorem alGet_alErase_same {α β : Type} [DecidableEq α] (k : α) (l : List (α × β)) :
    alGet k (alErase k l) = none := by
  induction l with
  | nil => rfl
  | cons q t ih =>
    by_cases hq : q.1 = k <;> simp [alGet, alErase, hq, ih]

theorem alGet_alErase_other {α β : Type} [DecidableEq α] (k k' : α) (l : List (α × β))
    (h : k' ≠ k) : alGet k' (alErase k l) = alGet k' l := by
  induction l with
  | nil => rfl
  | cons q t ih =>
    by_cases hq : q.1 = k
    · have hq' : q.1 ≠ k' := by
        rw [hq]
        exact Ne.symm h
      simp [alGet, alErase, hq, hq', ih, Ne.symm h]
    · by_cases hq' : q.1 = k' <;> simp [alGet, alErase, hq, hq', ih, h, Ne.symm h]

theorem alGet_alInsert_same {α β : Type} [DecidableEq α] (k : α) (v : β)
    (l : List (α × β)) : alGet k (alInsert k v l) = some v := by
  simp [alGet, alInsert]

theorem alGet_alInsert_other {α β : Type} [DecidableEq α] (k k' : α) (v : β)
    (l : List (α × β)) (h : k' ≠ k) : alGet k' (alInsert k v l) = alGet k' l := by
  simp only [alGet, alInsert]
  rw [if_neg (by simpa using Ne.symm h)]
  exact alGet_alErase_other k k' l h

end Wind

namespace Wind

/-! ## UDP fragment reassembly (udp_stream.rs, FragmentReassemblyBuffer) -/

/-- `wind_core::udp::UdpPacket` as constructed in udp_stream.rs (the optional
`source` field of the core struct is never set there and is omitted). -/
structure UdpPacket where
  target : TargetAddr
  payload : List Nat
  deriving DecidableEq, Repr

/-- `FragmentMetadata` (udp_stream.rs).  `fragments` is the per-packet
`Cache<u8, Bytes>`; the `last_updated` timestamp only drives the 30-second
cleanup and is not modelled. -/
structure FragmentMetadata where
  frag_total : Nat
  fragments : List (Nat × List Nat)
  target : TargetAddr
  deriving DecidableEq, Repr

/-- `FragmentReassemblyBuffer`: the `(assoc_id, pkt_id) → FragmentMetadata`
cache. -/
abbrev FragmentReassemblyBuffer := List ((Nat × Nat) × FragmentMetadata)

/-- The two `for i in 0..frag_total` loops of `reassemble_packet`: visit the
fragment ids in ascending order, bail out with `None` when a fragment is
missing, and collect the fragment payloads. -/
def collectFragments (frags : List (Nat × List Nat)) : Nat → Option (List (List Nat))
  | 0 => some []
  | m + 1 =>
    match collectFragments frags m, alGet m frags with
    | some acc, some frag => some (acc ++ [frag])
    | _, _ => none

/-- `FragmentReassemblyBuffer::reassemble_packet`: remove the entry, then
concatenate the fragments in strictly ascending `frag_id` order (missing
fragment ⇒ `None`). -/
def reassemblePacket (buf : FragmentReassemblyBuffer) (key : Nat × Nat) :
    Option UdpPacket × FragmentReassemblyBuffer :=
  match alGet key buf with
  | none => (none, buf)
  | some meta =>
    let buf2 := alErase key buf
    match collectFragments meta.fragments meta.frag_total with
    | none => (none, buf2)
    | some parts => (some ⟨meta.target, parts.flatten⟩, buf2)

/-- `FragmentReassemblyBuffer::add_fragment`: get or create the metadata
entry (`frag_total` and the target are taken from the first-seen fragment),
store this fragment, and reassemble when the entry count reaches
`frag_total`. -/
def addFragment (buf : FragmentReassemblyBuffer) (assoc_id pkt_id frag_total frag_id : Nat)
    (payload : List Nat) (target : TargetAddr) :
    Option UdpPacket × FragmentReassemblyBuffer :=
  let key := (assoc_id, pkt_id)
  let meta0 :=
    match alGet key buf with
    | some m => m
    | none => ⟨frag_total, [], target⟩
  let meta : FragmentMetadata :=
    { meta0 with fragments := alInsert frag_id payload meta0.fragments }
  let buf2 := alInsert key meta buf
  if meta.fragments.length = meta.frag_total then reassemblePacket buf2 key
  else (none, buf2)

/-- A sequence of `add_fragment` calls for one `(assoc_id, pkt_id)` key, all
with the same `frag_total`, with `p i` the payload of frag id `i`; returns
the final call's result and the final buffer. -/
def feedSeq (buf : FragmentReassemblyBuffer) (assoc_id pkt_id frag_total : Nat)
    (p : Nat → List Nat) (target : TargetAddr) (ids : List Nat) :
    Option UdpPacket × FragmentReassemblyBuffer :=
  ids.foldl (fun st i => addFragment st.2 assoc_id pkt_id frag_total i (p i) target)
    (none, buf)

end Wind

namespace Wind

/-! ## Reassembly correctness helper lemmas -/

theorem alGet_map_mem (p : Nat → List Nat) (ids : List Nat) (j : Nat) (hj : j ∈ ids) :
    alGet j (ids.map (fun x => (x, p x))) = some (p j) := by
  induction ids with
  | nil => cases hj
  | cons x t ih =>
    by_cases hx : x = j
    · simp [alGet, hx]
    · have hjt : j ∈ t := by
        rcases List.mem_cons.mp hj with hl | hr
        · exact absurd hl.symm hx
        · exact hr
      simp [alGet, hx, ih hjt]

theorem alErase_map_not_mem (p : Nat → List Nat) (ids : List Nat) (i : Nat)
    (h : i ∉ ids) : alErase i (ids.map (fun x => (x, p x))) = ids.map (fun x => (x, p x)) := by
  induction ids with
  | nil => rfl
  | cons x t ih =>
    have hx : x ≠ i := fun hxi => h (hxi ▸ List.mem_cons_self x t)
    have ht : i ∉ t := fun hit => h (List.mem_cons_of_mem x hit)
    simp [alErase, hx, ih ht]

theorem collectFragments_complete (p : Nat → List Nat) (frags : List (Nat × List Nat))
    (n : Nat) (h : ∀ j, j < n → alGet j frags = some (p j)) :
    collectFragments frags n = some ((List.range n).map p) := by
  induction n with
  | zero => simp [collectFragments]
  | succ m ih =>
    rw [collectFragments, ih (fun j hj => h j (by omega)), h m (by omega)]
    simp [List.range_succ]

theorem addFragment_step (buf : FragmentReassemblyBuffer) (a pk n : Nat)
    (p : Nat → List Nat) (target : TargetAddr) (arrived : List Nat) (i : Nat)
    (hmeta : alGet (a, pk) buf
      = some ⟨n, (arrived.reverse).map (fun j => (j, p j)), target⟩)
    (hfresh : i ∉ arrived) (hlen : arrived.length + 1 ≠ n) :
    addFragment buf a pk n i (p i) target
      = (none, alInsert (a, pk)
          ⟨n, ((arrived ++ [i]).reverse).map (fun j => (j, p j)), target⟩ buf) := by
  have hfresh2 : i ∉ arrived.reverse := by simpa using hfresh
  have hins : alInsert i (p i) ((arrived.reverse).map (fun j => (j, p j)))
      = ((arrived ++ [i]).reverse).map (fun j => (j, p j)) := by
    rw [alInsert, alErase_map_not_mem p arrived.reverse i hfresh2]
    simp
  simp only [addFragment, hmeta, hins]
  rw [if_neg (by simpa using hlen)]

theorem addFragment_final (buf : FragmentReassemblyBuffer) (a pk n : Nat)
    (p : Nat → List Nat) (target : TargetAddr) (arrived : List Nat) (i : Nat)
    (hmeta : alGet (a, pk) buf
      = some ⟨n, (arrived.reverse).map (fun j => (j, p j)), target⟩)
    (hfresh : i ∉ arrived) (hcount : arrived.length + 1 = n)
    (hcover : ∀ j, j < n → j ∈ arrived ++ [i]) :
    (addFragment buf a pk n i (p i) target).1
        = some ⟨target, ((List.range n).map p).flatten⟩ ∧
      alGet (a, pk) (addFragment buf a pk n i (p i) target).2 = none := by
  have hfresh2 : i ∉ arrived.reverse := by simpa using hfresh
  have hins : alInsert i (p i) ((arrived.reverse).map (fun j => (j, p j)))
      = ((arrived ++ [i]).reverse).map (fun j => (j, p j)) := by
    rw [alInsert, alErase_map_not_mem p arrived.reverse i hfresh2]
    simp
  have hall : ∀ j, j < n →
      alGet j (((arrived ++ [i]).reverse).map (fun j => (j, p j))) = some (p j) := by
    intro j hj
    refine alGet_map_mem p _ j ?_
    rw [List.mem_reverse]
    exact hcover j hj
  simp only [addFragment, hmeta, hins]
  rw [if_pos (by simpa using hcount)]
  rw [reassemblePacket, alGet_alInsert_same]
  simp only
  rw [collectFragments_complete p _ n hall]
  refine ⟨rfl, ?_⟩
  simp only
  rw [alGet_alErase_same]

theorem feedSeq_go (a pk n : Nat) (p : Nat → List Nat) (target : TargetAddr) :
    ∀ (toGo arrived : List Nat) (buf : FragmentReassemblyBuffer)
      (acc : Option UdpPacket),
      toGo ≠ [] →
      (arrived ++ toGo).Nodup →
      (∀ j, j ∈ arrived ++ toGo ↔ j < n) →
      arrived.length + toGo.length = n →
      alGet (a, pk) buf = some ⟨n, arrived.reverse.map (fun j => (j, p j)), target⟩ →
      (toGo.foldl (fun st i => addFragment st.2 a pk n i (p i) target) (acc, buf)).1
          = some ⟨target, ((List.range n).map p).flatten⟩ ∧
        alGet (a, pk)
          (toGo.foldl (fun st i => addFragment st.2 a pk n i (p i) target) (acc, buf)).2
          = none := by
  intro toGo
  induction toGo with
  | nil => intro arrived buf acc hne; exact absurd rfl hne
  | cons i rest ih =>
    intro arrived buf acc hne hnodup hcover hlen hmeta
    have hdisj := List.disjoint_of_nodup_append hnodup
    have hfresh : i ∉ arrived := fun hin => hdisj hin (List.mem_cons_self i rest)
    cases rest with
    | nil =>
      simp only [List.foldl_cons, List.foldl_nil]
      have hcount : arrived.length + 1 = n := by simpa using hlen
      exact addFragment_final buf a pk n p target arrived i hmeta hfresh hcount
        (fun j hj => (hcover j).mpr hj)
    | cons i2 rest2 =>
      simp only [List.foldl_cons]
      have hlen2 : arrived.length + 1 ≠ n := by
        simp only [List.length_cons] at hlen
        omega
      rw [addFragment_step buf a pk n p target arrived i hmeta hfresh hlen2]
      have hsplit : arrived ++ i :: i2 :: rest2 = (arrived ++ [i]) ++ i2 :: rest2 := by
        simp
      rw [hsplit] at hnodup hcover
      refine ih (arrived ++ [i]) _ none (by simp) hnodup hcover ?_ ?_
      · simp only [List.length_append, List.length_cons, List.length_nil] at hlen ⊢
        omega
      · exact alGet_alInsert_same _ _ _

end Wind

namespace Wind

/-- Claim C9: for every complete set of fragments for one
`(assoc_id, pkt_id)` key with `frag_total = n ≥ 2`, each frag id below `n`
and payloads `p i`, feeding them to `add_fragment` in any arrival order
(`ids` is any permutation of `0..n-1`) produces, on the final insertion, a
reassembled `UdpPacket` whose payload is the concatenation of the fragments
in ascending frag id order, and removes the buffer entry for that key. -/
theorem claim_C9 (n : Nat) (hn : 2 ≤ n) (p : Nat → List Nat) (assoc_id pkt_id : Nat)
    (target : TargetAddr) (ids : List Nat) (hperm : ids.Perm (List.range n))
    (buf : FragmentReassemblyBuffer) (hbuf : alGet (assoc_id, pkt_id) buf = none) :
    (feedSeq buf assoc_id pkt_id n p target ids).1
        = some ⟨target, ((List.range n).map p).flatten⟩ ∧
      alGet (assoc_id, pkt_id) (feedSeq buf assoc_id pkt_id n p target ids).2 = none := by
  have hlen : ids.length = n := by rw [hperm.length_eq, List.length_range]
  have hnodup : ids.Nodup := hperm.nodup_iff.mpr (List.nodup_range n)
  have hmem : ∀ j, j ∈ ids ↔ j < n := fun j => Iff.trans hperm.mem_iff (List.mem_range)
  match ids, hlen, hnodup, hmem with
  | [], hlen, _, _ => simp only [List.length_nil] at hlen; omega
  | [i], hlen, _, _ => simp only [List.length_cons, List.length_nil] at hlen; omega
  | i :: i2 :: rest2, hlen, hnodup, hmem =>
    have h1 : addFragment buf assoc_id pkt_id n i (p i) target
        = (none, alInsert (assoc_id, pkt_id)
            ⟨n, ([i].reverse).map (fun j => (j, p j)), target⟩ buf) := by
      simp only [addFragment, hbuf, alInsert, alErase, List.reverse_cons,
        List.reverse_nil, List.nil_append, List.map_cons, List.map_nil]
      rw [if_neg (by simp; omega)]
    rw [feedSeq]
    simp only [List.foldl_cons]
    rw [show addFragment (none (α := UdpPacket), buf).2 assoc_id pkt_id n i (p i) target
        = (none, alInsert (assoc_id, pkt_id)
            ⟨n, ([i].reverse).map (fun j => (j, p j)), target⟩ buf) from h1]
    refine feedSeq_go assoc_id pkt_id n p target (i2 :: rest2) [i] _ none (by simp) ?_ ?_ ?_
      (alGet_alInsert_same _ _ _)
    · simpa using hnodup
    · intro j
      rw [← hmem j]
      simp
    · simp only [List.length_cons, List.length_nil] at hlen ⊢
      omega

/-- Witness for claim C9: the spec's example — fragments "C", "A", "B"
arriving in the order 2, 0, 1 for key (1, 300) with frag_total 3 reassemble
to "ABC" and the entry is removed. -/
theorem claim_C9_witness :
    (feedSeq [] 1 300 3 (fun i => [65 + i]) (.ipv4 [127, 0, 0, 1] 8080) [2, 0, 1]).1
        = some ⟨.ipv4 [127, 0, 0, 1] 8080, ((List.range 3).map (fun i => [65 + i])).flatten⟩ ∧
      alGet (1, 300)
        (feedSeq [] 1 300 3 (fun i => [65 + i]) (.ipv4 [127, 0, 0, 1] 8080) [2, 0, 1]).2
        = none :=
  claim_C9 3 (by norm_num) (fun i => [65 + i]) 1 300 (.ipv4 [127, 0, 0, 1] 8080)
    [2, 0, 1] (by decide) [] rfl

end Wind

namespace Wind

/-! ## Client UDP send path (udp_stream.rs, UdpStream::send_packet /
send_fragmented_packet) -/

/-- One Packet frame as emitted by the send path: `send_udp` writes
Header + Packet command + Address + payload into one QUIC datagram
(`isDatagram = true`); `send_fragmented_packet` writes the same layout on a
fresh unidirectional stream per fragment (`isDatagram = false`). -/
structure PacketFrame where
  isDatagram : Bool
  assoc_id : Nat
  pkt_id : Nat
  frag_total : Nat
  frag_id : Nat
  size : Nat
  addr : Address
  payload : List Nat
  deriving DecidableEq, Repr

/-- The wire bytes of a frame, exactly as the source builds them with
`HeaderCodec.encode`, `CmdCodec.encode` and `AddressCodec.encode` followed
by the fragment payload. -/
def PacketFrame.wire (f : PacketFrame) : Except ProtoError (List Nat) :=
  match AddressCodec.encode f.addr with
  | .error e => .error e
  | .ok ab =>
    .ok (HeaderCodec.encode (Header.mkNew .packet)
      ++ CmdCodec.encode (.packet f.assoc_id f.pkt_id f.frag_total f.frag_id f.size)
      ++ ab ++ f.payload)

/-- The `eyre` errors `send_packet` / `send_fragmented_packet` can return. -/
inductive SendError
  | domainTooLong
  | packetTooLarge
  deriving DecidableEq, Repr

/-- Outcome of one `send_packet` call.  `panicked` marks a Rust panic:
the debug-profile underflow of the plain `-` on the single-datagram
threshold, or the division by zero in the fragment-count computation. -/
inductive SendResult
  | ok (frames : List PacketFrame) (next_pkt_id : Nat)
  | err (e : SendError)
  | panicked
  deriving DecidableEq, Repr

/-- `UdpStream::send_fragmented_packet` (udp_stream.rs lines 199–262).
`mds` is `connection.max_datagram_size()`; `next_pkt_id` the stream's
counter.  `saturating_sub` is `Nat` subtraction; when the resulting
`max_fragment_size` is zero the expression
`(payload_len + max_fragment_size - 1) / max_fragment_size` divides by
zero, which is a Rust panic in every build profile. -/
def sendFragmentedPacket (mds : Option Nat) (assoc_id next_pkt_id : Nat)
    (target : TargetAddr) (payload : List Nat) : SendResult :=
  let payload_len := payload.length
  let addr_size :=
    match target with
    | .ipv4 _ _ => 1 + 4 + 2
    | .ipv6 _ _ => 1 + 16 + 2
    | .domain name _ => 1 + 1 + name.length + 2
  let header_overhead := 8 + addr_size
  let max_datagram_size := mds.getD 1200
  let max_fragment_size := max_datagram_size - header_overhead
  if max_fragment_size = 0 then .panicked
  else
    let fragment_count := (payload_len + max_fragment_size - 1) / max_fragment_size
    if fragment_count > 255 then .err .packetTooLarge
    else
      let pkt_id := next_pkt_id
      let frames := (List.range fragment_count).map (fun frag_id =>
        let start := frag_id * max_fragment_size
        let stop := min ((frag_id + 1) * max_fragment_size) payload_len
        let fragment_payload := (payload.drop start).take (stop - start)
        ({ isDatagram := false, assoc_id := assoc_id, pkt_id := pkt_id,
           frag_total := fragment_count % 256, frag_id := frag_id % 256,
           size := fragment_payload.length % 65536,
           addr := addressOfTarget target, payload := fragment_payload } : PacketFrame))
      .ok frames ((next_pkt_id + 1) % 65536)

/-- `UdpStream::send_packet` (udp_stream.rs lines 158–197).  The
single-datagram threshold uses a plain `usize` subtraction
`max_datagram_size - header_overhead` (line 178), which underflows — a
debug-profile panic — whenever the advertised datagram size is below the
(command + address) overhead; `panicked` marks that.  The single-datagram
branch delegates to `send_udp` (ext.rs) with `frag_total = 1, frag_id = 0,
size = payload.len() as u16` and bumps `next_pkt_id` by one. -/
def sendPacket (mds : Option Nat) (assoc_id next_pkt_id : Nat) (target : TargetAddr)
    (payload : List Nat) : SendResult :=
  let payload_len := payload.length
  let addr_size : Except SendError Nat :=
    match target with
    | .ipv4 _ _ => .ok (1 + 4 + 2)
    | .ipv6 _ _ => .ok (1 + 16 + 2)
    | .domain name _ =>
      if name.length > 255 then .error .domainTooLong else .ok (1 + 1 + name.length + 2)
  match addr_size with
  | .error e => .err e
  | .ok addr_size =>
    let header_overhead := 8 + addr_size
    let max_datagram_size := mds.getD 1200
    if max_datagram_size < header_overhead then .panicked
    else if payload_len ≤ max_datagram_size - header_overhead then
      .ok [{ isDatagram := true, assoc_id := assoc_id, pkt_id := next_pkt_id,
             frag_total := 1, frag_id := 0, size := payload_len % 65536,
             addr := addressOfTarget target, payload := payload }]
        ((next_pkt_id + 1) % 65536)
    else sendFragmentedPacket mds assoc_id next_pkt_id target payload

end Wind


namespace Wind

/-- Claim C6 (code bug): evaluation of the send path at a tiny advertised
datagram size.  With `max_datagram_size = 15` and an IPv4 target the code's
`header_overhead` is `8 + 7 = 15`, so a 1-byte payload fails the
single-datagram test, `max_fragment_size = saturating_sub(15, 15) = 0`, and
`(payload_len + 0 - 1) / 0` divides by zero — a panic, contradicting the
claim that the computation is total for every `max_datagram_size`. -/
theorem claim_C6_code_bug :
    sendPacket (some 15) 1 0 (.ipv4 [127, 0, 0, 1] 80) [0] = .panicked := by
  decide

/-- The single frame `send_packet` emits at claim C1's failing input. -/
def c1Frame : PacketFrame :=
  { isDatagram := true, assoc_id := 1, pkt_id := 0, frag_total := 1, frag_id := 0,
    size := 5, addr := .ipv4 [192, 168, 1, 1] 8080, payload := [1, 2, 3, 4, 5] }

/-- Claim C1 (code bug): evaluation at a failing input.  Per the claim,
`header_overhead` for IPv4 is `2 + 8 + 7 = 17`, so with
`max_datagram_size = 20` a 5-byte payload exceeds `20 - 17 = 3` and must be
split into `ceil(5/3) = 2` fragments.  The source computes
`header_overhead = 8 + 7 = 15` (udp_stream.rs line 174, omitting the 2-byte
header), accepts `5 ≤ 20 - 15`, and emits a single datagram with
`frag_total = 1` whose wire size `2 + 8 + 7 + 5 = 22` exceeds the 20-byte
datagram limit.  (Same off-by-two at the default 1200: a 1185-byte IPv4
payload yields a single 1202-byte datagram.) -/
theorem claim_C1_code_bug :
    sendPacket (some 20) 1 0 (.ipv4 [192, 168, 1, 1] 8080) [1, 2, 3, 4, 5]
        = .ok [c1Frame] 1 ∧
      c1Frame.frag_total = 1 ∧
      ∃ w, c1Frame.wire = .ok w ∧ w.length = 22 ∧ 20 < w.length := by
  refine ⟨by decide, by decide, ?_⟩
  refine ⟨_, rfl, by decide, by decide⟩

/-- The two frames `send_fragmented_packet` emits at the counterexample
input of claim C3. -/
def c3Frames : List PacketFrame :=
  [{ isDatagram := false, assoc_id := 1, pkt_id := 0, frag_total := 2, frag_id := 0,
     size := 5, addr := .ipv4 [192, 168, 1, 1] 8080, payload := [1, 2, 3, 4, 5] },
   { isDatagram := false, assoc_id := 1, pkt_id := 0, frag_total := 2, frag_id := 1,
     size := 4, addr := .ipv4 [192, 168, 1, 1] 8080, payload := [6, 7, 8, 9] }]

/-- Counterexample to claim C3: a fragmented send (IPv4 target, 9-byte
payload, 20-byte datagram size, hence `max_fragment_size = 5` and 2
fragments).  The fragment with `frag_id = 1` carries the encoded real
target address — not `Address::None`: udp_stream.rs line 254 encodes
`packet.target` for every fragment of the loop, so the claim's
"`Address::None` in every fragment with frag_id ≥ 1" is false. -/
theorem claim_C3_counterexample :
    sendPacket (some 20) 1 0 (.ipv4 [192, 168, 1, 1] 8080) [1, 2, 3, 4, 5, 6, 7, 8, 9]
        = .ok c3Frames 1 ∧
      (c3Frames.get? 1).map PacketFrame.frag_id = some 1 ∧
      (c3Frames.get? 1).map PacketFrame.addr
        = some (.ipv4 [192, 168, 1, 1] 8080) ∧
      some (Address.ipv4 [192, 168, 1, 1] 8080) ≠ some Address.addrNone := by
  refine ⟨by decide, by decide, by decide, by decide⟩

/-- Claim C3 as amended: in every fragmented send, every fragment — the
first and every continuation fragment alike — carries the encoded real
target address (never `Address::None` for continuation fragments), and all
fragments carry the same `pkt_id`. -/
theorem claim_C3_amended (mds : Option Nat) (assoc_id next_pkt_id : Nat)
    (target : TargetAddr) (payload : List Nat) (frames : List PacketFrame) (next : Nat)
    (hsend : sendFragmentedPacket mds assoc_id next_pkt_id target payload
      = .ok frames next) :
    ∀ f ∈ frames, f.addr = addressOfTarget target ∧ f.pkt_id = next_pkt_id := by
  simp only [sendFragmentedPacket] at hsend
  split at hsend
  · cases hsend
  · split at hsend
    · cases hsend
    · simp only [SendResult.ok.injEq] at hsend
      obtain ⟨hframes, -⟩ := hsend
      subst hframes
      intro f hf
      obtain ⟨fid, -, rfl⟩ := List.mem_map.mp hf
      exact ⟨rfl, rfl⟩

/-- Witness for the amended claim C3, at the counterexample's concrete
fragmented send, instantiated at its continuation fragment (frag_id 1). -/
theorem claim_C3_amended_witness :
    PacketFrame.addr
        { isDatagram := false, assoc_id := 1, pkt_id := 0, frag_total := 2, frag_id := 1,
          size := 4, addr := .ipv4 [192, 168, 1, 1] 8080, payload := [6, 7, 8, 9] }
        = addressOfTarget (.ipv4 [192, 168, 1, 1] 8080) ∧
      PacketFrame.pkt_id
        { isDatagram := false, assoc_id := 1, pkt_id := 0, frag_total := 2, frag_id := 1,
          size := 4, addr := .ipv4 [192, 168, 1, 1] 8080, payload := [6, 7, 8, 9] }
        = 0 :=
  claim_C3_amended (some 20) 1 0 (.ipv4 [192, 168, 1, 1] 8080)
    [1, 2, 3, 4, 5, 6, 7, 8, 9] c3Frames 1 (by decide) _ (by decide)

end Wind

namespace Wind

/-! ## Server inbound (inbound.rs) -/

/-- `UdpSession` (inbound.rs): the server's per-association record;
`fragments` is its `Cache<u16, Vec<u8>>`. -/
structure SrvUdpSession where
  assoc_id : Nat
  fragments : List (Nat × List Nat)
  deriving DecidableEq, Repr

/-- `InboundCtx` (inbound.rs lines 250–263).  The `conn` handle is
abstracted: its `export_keying_material` is the `ekm` function passed to the
handlers, and connection-level actions appear as `ConnEffect`s.  `uuid` is
the authenticated UUID's 16 raw bytes, `users` maps UUID bytes to the
password bytes. -/
structure InboundCtx where
  uuid : Option (List Nat)
  users : List (List Nat × List Nat)
  udp_sessions : List (Nat × SrvUdpSession)
  deriving DecidableEq, Repr

/-- Outcome of one handler call: `Ok(())`, an `eyre` error (logged by the
connection loop), or a Rust panic. -/
inductive HandlerOutcome
  | ok
  | errored
  | panicked
  deriving DecidableEq, Repr

/-- Connection-level action issued while handling events. -/
inductive ConnEffect
  | close (code : Nat) (reason : List Nat)
  | logError
  deriving DecidableEq, Repr

/-- Whether an effect closes the QUIC connection. -/
def ConnEffect.isClose : ConnEffect → Bool
  | .close _ _ => true
  | .logError => false

/-- `handle_auth` (inbound.rs lines 537–560): look up the user, recompute
the expected token via the TLS keying-material exporter (`ekm`), and mark
the connection authenticated only on a match; unknown user or token
mismatch return an error and leave the state untouched. -/
def handleAuth (ekm : List Nat → List Nat → List Nat) (ctx : InboundCtx)
    (uuid token : List Nat) : InboundCtx × HandlerOutcome :=
  match alGet uuid ctx.users with
  | none => (ctx, .errored)
  | some password =>
    let expected_token := ekm uuid password
    if token ≠ expected_token then (ctx, .errored)
    else ({ ctx with uuid := some uuid }, .ok)

/-- `handle_udp_packet` (inbound.rs lines 563–591): the server-side UDP
relay is unimplemented — the function logs the packet and returns Ok
without touching any state or invoking the callback. -/
def handleUdpPacket (ctx : InboundCtx) (_assoc_id : Nat) (_target : TargetAddr)
    (_payload : List Nat) : InboundCtx × HandlerOutcome :=
  (ctx, .ok)

/-- `handle_dissociate` (inbound.rs lines 594–599): remove the
`udp_sessions` entry for `assoc_id` (whether or not one exists) and return
Ok. -/
def handleDissociate (ctx : InboundCtx) (assoc_id : Nat) :
    InboundCtx × HandlerOutcome :=
  ({ ctx with udp_sessions := alErase assoc_id ctx.udp_sessions }, .ok)

/-- `handle_uni_stream` (inbound.rs lines 377–425): `read_to_end(65536)`,
decode Header, decode Command, dispatch.  This path performs no
authentication check (unlike `handle_bi_stream` lines 435–441 and
`handle_datagram` lines 498–503).  In the Packet arm the source runs
`buf.split_to(size as usize)` before inspecting the address; `split_to`
panics when `size` exceeds the remaining bytes — modelled as `panicked`. -/
def handleUniStream (ekm : List Nat → List Nat → List Nat) (ctx : InboundCtx)
    (data : List Nat) : InboundCtx × HandlerOutcome :=
  if data.length > 65536 then (ctx, .errored)
  else
    match HeaderCodec.decode data with
    | (.error _, _) => (ctx, .errored)
    | (.ok none, _) => (ctx, .errored)
    | (.ok (some header), buf) =>
      match CmdCodec.decode header.command buf with
      | (.error _, _) => (ctx, .errored)
      | (.ok none, _) => (ctx, .errored)
      | (.ok (some cmd), buf) =>
        match cmd with
        | .auth uuid token => handleAuth ekm ctx uuid token
        | .packet assoc_id _ _ _ size =>
          match AddressCodec.decode buf with
          | (.error _, _) => (ctx, .errored)
          | (.ok none, _) => (ctx, .errored)
          | (.ok (some addr), buf) =>
            if size > buf.length then (ctx, .panicked)
            else
              let payload := buf.take size
              match addr with
              | .addrNone => (ctx, .ok)
              | .domain name port => handleUdpPacket ctx assoc_id (.domain name port) payload
              | .ipv4 ip port => handleUdpPacket ctx assoc_id (.ipv4 ip port) payload
              | .ipv6 ip port => handleUdpPacket ctx assoc_id (.ipv6 ip port) payload
        | .dissociate assoc_id => handleDissociate ctx assoc_id
        | .heartbeat => (ctx, .ok)
        | .connect => (ctx, .ok)

/-- `handle_datagram` (inbound.rs lines 492–534): drop silently when the
connection is not yet authenticated, otherwise decode and dispatch; the
Packet arm has the same out-of-range `split_to` panic. -/
def handleDatagram (ctx : InboundCtx) (data : List Nat) :
    InboundCtx × HandlerOutcome :=
  if ctx.uuid = none then (ctx, .ok)
  else
    match HeaderCodec.decode data with
    | (.error _, _) => (ctx, .errored)
    | (.ok none, _) => (ctx, .errored)
    | (.ok (some header), buf) =>
      match header.command with
      | .packet =>
        match CmdCodec.decode .packet buf with
        | (.error _, _) => (ctx, .errored)
        | (.ok none, _) => (ctx, .errored)
        | (.ok (some cmd), buf) =>
          match cmd with
          | .packet assoc_id _ _ _ size =>
            match AddressCodec.decode buf with
            | (.error _, _) => (ctx, .errored)
            | (.ok none, _) => (ctx, .errored)
            | (.ok (some addr), buf) =>
              if size > buf.length then (ctx, .panicked)
              else
                let payload := buf.take size
                match addr with
                | .addrNone => (ctx, .ok)
                | .domain name port => handleUdpPacket ctx assoc_id (.domain name port) payload
                | .ipv4 ip port => handleUdpPacket ctx assoc_id (.ipv4 ip port) payload
                | .ipv6 ip port => handleUdpPacket ctx assoc_id (.ipv6 ip port) payload
          | _ => (ctx, .ok)
      | .heartbeat => (ctx, .ok)
      | _ => (ctx, .ok)

/-- One iteration of the `handle_connection` select loop for an accepted
unidirectional stream (inbound.rs lines 322–337): a handler error is only
logged (`error!("Uni stream error")`); no `conn.close` is issued on this
path.  (None of the inputs considered in the claims below panic here.) -/
def connUniEvent (ekm : List Nat → List Nat → List Nat) (ctx : InboundCtx)
    (data : List Nat) : InboundCtx × List ConnEffect :=
  match handleUniStream ekm ctx data with
  | (ctx2, .ok) => (ctx2, [])
  | (ctx2, _) => (ctx2, [.logError])

/-- The reason string `b"auth timeout"`. -/
def authTimeoutReason : List Nat :=
  [97, 117, 116, 104, 32, 116, 105, 109, 101, 111, 117, 116]

/-- The authentication-timeout task (inbound.rs lines 308–317): when the
timer fires with the uuid still unset, close the connection with
application error code 0 and reason "auth timeout". -/
def authTimeoutFire (ctx : InboundCtx) : List ConnEffect :=
  if ctx.uuid = none then [.close 0 authTimeoutReason] else []

end Wind

namespace Wind

/-- A fixed keying-material exporter for concrete evaluations: every
(uuid, secret) pair exports the 32-byte token 0x01 repeated. -/
def ekmConst : List Nat → List Nat → List Nat := fun _ _ => List.replicate 32 1

/-- A connection state that is not yet authenticated and holds a UDP
session for association 5. -/
def c2Ctx : InboundCtx :=
  { uuid := none, users := [],
    udp_sessions := [(5, { assoc_id := 5, fragments := [] })] }

/-- Claim C2 (code bug): a pre-authentication Dissociate received on a
unidirectional stream IS acted on.  `handle_uni_stream` (inbound.rs lines
377–425) dispatches decoded commands without consulting `ctx.uuid` — unlike
the bi-stream and datagram paths — so on a connection whose uuid is still
unset, the wire bytes `[5, 3, 0, 5]` (Header Dissociate + assoc_id 5)
remove the udp_sessions entry 5 and return Ok. -/
theorem claim_C2_code_bug :
    c2Ctx.uuid = none ∧
      alGet 5 c2Ctx.udp_sessions ≠ none ∧
      handleUniStream ekmConst c2Ctx [5, 3, 0, 5]
        = ({ uuid := none, users := [], udp_sessions := [] }, .ok) := by
  decide

/-- An authenticated connection state with no UDP sessions. -/
def c4Ctx : InboundCtx :=
  { uuid := some (List.replicate 16 9), users := [], udp_sessions := [] }

/-- Claim C4 (code bug): the server's decode-and-dispatch path panics on a
peer-supplied Packet whose declared size exceeds the bytes remaining after
the address.  The uni-stream bytes below decode to
`Packet{assoc 1, pkt 0, frag_total 1, frag_id 0, size 100}` followed by an
IPv4 address and zero payload bytes; `buf.split_to(100)` (inbound.rs line
403) panics instead of logging and dropping. -/
theorem claim_C4_code_bug :
    handleUniStream ekmConst c4Ctx
        [5, 2, 0, 1, 0, 0, 1, 0, 0, 100, 1, 127, 0, 0, 1, 0, 80]
      = (c4Ctx, .panicked) := by
  decide

/-- Decoding dispatch of an Auth uni stream: the 50-byte payload
`Header(Auth) ++ uuid ++ token` reaches `handle_auth` unchanged. -/
theorem uniAuthDispatch (ekm : List Nat → List Nat → List Nat) (ctx : InboundCtx)
    (uuid token : List Nat) (h16 : uuid.length = 16) (h32 : token.length = 32) :
    handleUniStream ekm ctx ([5, 0] ++ uuid ++ token) = handleAuth ekm ctx uuid token := by
  have hng : ¬(([5, 0] ++ uuid ++ token).length > 65536) := by
    simp only [List.length_append, List.length_cons, List.length_nil, h16, h32]
    omega
  have hhdr : HeaderCodec.decode ([5, 0] ++ (uuid ++ token))
      = (.ok (some (Header.mkNew .auth)), uuid ++ token) :=
    headerRoundTrip (Header.mkNew .auth) ⟨rfl, rfl⟩ (uuid ++ token)
  have hcmd : CmdCodec.decode .auth (uuid ++ token)
      = (.ok (some (.auth uuid token)), []) := by
    have h := cmdRoundTrip (.auth uuid token) ⟨h16, h32⟩ []
    rwa [List.append_nil] at h
  simp only [handleUniStream]
  rw [if_neg hng, List.append_assoc, hhdr]
  simp only [Header.mkNew]
  rw [hcmd]

/-- Claim C5 as amended: `handle_auth` marks the connection authenticated
(if and) only if the uuid is a known user and the token equals the token
recomputed via the keying-material exporter; on unknown user or mismatch
the state is unchanged (the uuid stays unset) and the uni-stream arm of the
connection loop only logs the error — it issues no close.  The connection
is closed only by the separate auth-timeout task when the uuid is still
unset at the deadline. -/
theorem claim_C5_amended (ekm : List Nat → List Nat → List Nat) (ctx : InboundCtx)
    (uuid token : List Nat) (h16 : uuid.length = 16) (h32 : token.length = 32) :
    ((∃ pw, alGet uuid ctx.users = some pw ∧ token = ekm uuid pw) →
      connUniEvent ekm ctx ([5, 0] ++ uuid ++ token)
        = ({ ctx with uuid := some uuid }, [])) ∧
    ((¬∃ pw, alGet uuid ctx.users = some pw ∧ token = ekm uuid pw) →
      connUniEvent ekm ctx ([5, 0] ++ uuid ++ token) = (ctx, [.logError])) ∧
    (ctx.uuid = none → authTimeoutFire ctx = [.close 0 authTimeoutReason]) := by
  have hd := uniAuthDispatch ekm ctx uuid token h16 h32
  refine ⟨?_, ?_, ?_⟩
  · rintro ⟨pw, hpw, htok⟩
    simp only [connUniEvent]
    rw [hd]
    simp [handleAuth, hpw, htok]
  · intro hno
    simp only [connUniEvent]
    rw [hd]
    rcases halget : alGet uuid ctx.users with _ | pw
    · simp [handleAuth, halget]
    · have hne : token ≠ ekm uuid pw := fun heq => hno ⟨pw, halget, heq⟩
      simp [handleAuth, halget, hne]
  · intro h
    simp [authTimeoutFire, h]

/-- The connection state of the claim C5 evaluations: unauthenticated, one
known user. -/
def c5Ctx : InboundCtx :=
  { uuid := none, users := [(List.replicate 16 9, [112, 119])], udp_sessions := [] }

/-- Counterexample to claim C5: an Auth command with a known uuid but a
wrong token (0x02-bytes instead of the exporter's 0x01-bytes).  The uuid
stays unset, but the connection is NOT closed: `handle_auth` returns an
error and the uni-stream arm of `handle_connection` only logs it
(inbound.rs lines 326–331); no close effect is issued, contradicting the
claim's "the QUIC connection is closed with an application error code". -/
theorem claim_C5_counterexample :
    connUniEvent ekmConst c5Ctx ([5, 0] ++ List.replicate 16 9 ++ List.replicate 32 2)
        = (c5Ctx, [.logError]) ∧
      (connUniEvent ekmConst c5Ctx
          ([5, 0] ++ List.replicate 16 9 ++ List.replicate 32 2)).2.all
          (fun e => !e.isClose) = true ∧
      c5Ctx.uuid = none := by
  decide

/-- Witness for the amended claim C5 at the concrete connection state. -/
theorem claim_C5_amended_witness :
    ((∃ pw, alGet (List.replicate 16 9) c5Ctx.users = some pw ∧
        List.replicate 32 2 = ekmConst (List.replicate 16 9) pw) →
      connUniEvent ekmConst c5Ctx
          ([5, 0] ++ List.replicate 16 9 ++ List.replicate 32 2)
        = ({ c5Ctx with uuid := some (List.replicate 16 9) }, [])) ∧
    ((¬∃ pw, alGet (List.replicate 16 9) c5Ctx.users = some pw ∧
        List.replicate 32 2 = ekmConst (List.replicate 16 9) pw) →
      connUniEvent ekmConst c5Ctx
          ([5, 0] ++ List.replicate 16 9 ++ List.replicate 32 2)
        = (c5Ctx, [.logError])) ∧
    (c5Ctx.uuid = none → authTimeoutFire c5Ctx = [.close 0 authTimeoutReason]) :=
  claim_C5_amended ekmConst c5Ctx (List.replicate 16 9) (List.replicate 32 2)
    (by decide) (by decide)

/-- Claim C10: `handle_dissociate(assoc_id)` removes at most the
`udp_sessions` entry keyed `assoc_id` and changes nothing else — every
other association's entry, the authenticated uuid and the users map are
unchanged — and it returns Ok even when no entry with that id exists. -/
theorem claim_C10 (ctx : InboundCtx) (assoc_id : Nat) :
    (handleDissociate ctx assoc_id).2 = .ok ∧
      (handleDissociate ctx assoc_id).1.udp_sessions
        = alErase assoc_id ctx.udp_sessions ∧
      alGet assoc_id (handleDissociate ctx assoc_id).1.udp_sessions = none ∧
      (∀ k, k ≠ assoc_id →
        alGet k (handleDissociate ctx assoc_id).1.udp_sessions
          = alGet k ctx.udp_sessions) ∧
      (handleDissociate ctx assoc_id).1.uuid = ctx.uuid ∧
      (handleDissociate ctx assoc_id).1.users = ctx.users :=
  ⟨rfl, rfl, alGet_alErase_same _ _,
    fun k hk => alGet_alErase_other _ k _ hk, rfl, rfl⟩

/-- Witness for claim C10: dissociating association 5 from a state that
also holds association 3 removes exactly entry 5, and a second dissociate
of the now-absent id still returns Ok. -/
theorem claim_C10_witness :
    (handleDissociate c2Ctx 5).2 = .ok ∧
      alGet 5 (handleDissociate c2Ctx 5).1.udp_sessions = none ∧
      alGet 3 (handleDissociate c2Ctx 5).1.udp_sessions = alGet 3 c2Ctx.udp_sessions ∧
      (handleDissociate c2Ctx 5).1.uuid = c2Ctx.uuid ∧
      (handleDissociate (handleDissociate c2Ctx 5).1 5).2 = .ok :=
  ⟨(claim_C10 c2Ctx 5).1, (claim_C10 c2Ctx 5).2.2.1,
    (claim_C10 c2Ctx 5).2.2.2.1 3 (by decide),
    (claim_C10 c2Ctx 5).2.2.2.2.1,
    (claim_C10 (handleDissociate c2Ctx 5).1 5).1⟩

end Wind
